import Mathlib

/-!
Verification of the FastBlocks block store (src/block.py) against its
natural-language specification.

The Python `BlockManager` is shallowly embedded: byte strings are lists of
naturals, the storage directory is an association list from file name to file
content, and the in-memory LRU cache is an association list whose order is the
recency order of an `OrderedDict` (front = oldest / least recently used,
back = newest / most recently used).  File names are relative to the fixed
block directory, so `os.path.join(block_dir, f)` and `os.path.basename` are
both the identity here.  The external byte filters (zlib compression, Fernet
encryption, the WebP codec) are opaque collaborators and appear as function
fields of the configuration.  All operations are modelled for sequential
execution; the one concurrency scenario (two saves under the source's
per-call `asyncio.Lock()`) gets its own explicit schedule function.
-/

namespace FastBlocks

/-- Byte strings, modelled as lists of byte values. -/
abbrev Bytes := List Nat

/-- The storage directory: file name to file content, in creation order. -/
abbrev FS := List (String × Bytes)

/-- The segment cache: an `OrderedDict` as an association list in recency
order, front = least recently used. -/
abbrev Cache := List (String × Bytes)

/-- Content of a file, if it is present in the directory. -/
def lookupFile : FS → String → Option Bytes
  | [], _ => none
  | p :: ps, n => if p.1 == n then some p.2 else lookupFile ps n

/-- Python `os.path.exists` restricted to the block directory. -/
def existsFile (fs : FS) (name : String) : Bool :=
  (lookupFile fs name).isSome

/-- Python `os.path.getsize` (only ever called on existing files). -/
def getsize (fs : FS) (name : String) : Nat :=
  ((lookupFile fs name).getD []).length

/-- Create or overwrite a file: overwriting keeps the directory position,
creation appends a new entry. -/
def setFile : FS → String → Bytes → FS
  | [], n, d => [(n, d)]
  | p :: ps, n, d => if p.1 == n then (n, d) :: ps else p :: setFile ps n d

/-- Append to a file, as Python `open(path, 'ab')` followed by a write. -/
def appendFile (fs : FS) (name : String) (data : Bytes) : FS :=
  setFile fs name (((lookupFile fs name).getD []) ++ data)

/-- Python `os.listdir` on the block directory. -/
def listdir (fs : FS) : List String := fs.map Prod.fst

/-- Python `str.startswith('block_')`. -/
def startsWithBlock (s : String) : Bool :=
  List.isPrefixOf "block_".data s.data

/-- Lexicographic comparison of code-point lists, exactly Python's `<` on
`str` values: a strict initial segment is smaller, otherwise the first
differing code point decides. -/
def charListLt : List Char → List Char → Bool
  | _, [] => false
  | [], _ :: _ => true
  | a :: as, b :: bs =>
    if a.toNat < b.toNat then true
    else if b.toNat < a.toNat then false
    else charListLt as bs

/-- Python `<` on strings (code-point lexicographic order). -/
def strLt (a b : String) : Bool := charListLt a.data b.data

/-- Insert into an ascending list, keeping it ascending under `strLt`. -/
def insertStr (x : String) : List String → List String
  | [] => [x]
  | y :: ys => if strLt x y then x :: y :: ys else y :: insertStr x ys

/-- Python `sorted` on a list of strings (ascending lexicographic order,
realised as insertion sort). -/
def pySorted : List String → List String
  | [] => []
  | x :: xs => insertStr x (pySorted xs)

/-- Normalise one bound of a Python slice `data[i:j]` for a buffer of length
`len`: a negative index counts from the end, and both bounds are clamped
into `[0, len]`. -/
def pyBound (len : Nat) (i : Int) : Nat :=
  if i < 0 then ((len : Int) + i).toNat else min i.toNat len

/-- Python slice `data[i:j]` on byte strings. -/
def pySlice (data : Bytes) (i j : Int) : Bytes :=
  let a := pyBound data.length i
  let b := pyBound data.length j
  (data.drop a).take (b - a)

/-- Python `str.split(sep)` for a one-character separator, on code points. -/
def splitOnChar (c : Char) : List Char → List (List Char)
  | [] => [[]]
  | x :: xs =>
    match splitOnChar c xs with
    | [] => [[]]
    | h :: t => if x = c then [] :: h :: t else (x :: h) :: t

/-- Python `int` on a decimal digit string (only well-formed segment file
names ever reach this parse in the source). -/
def parseNat (s : List Char) : Nat :=
  s.foldl (fun acc ch => acc * 10 + (ch.toNat - 48)) 0

/-- The numeric id parsed from a segment file name by
`int(current_block.split('_')[1].split('.')[0])` (src/block.py line 176). -/
def blockNumber (name : String) : Nat :=
  parseNat ((splitOnChar '.' ((splitOnChar '_' name.data).getD 1 [])).headD [])

/-- Immutable per-store configuration of `BlockManager.__init__`
(src/block.py lines 11-19).  `comp`/`decomp`, `enc`/`dec` and `webp` are the
opaque external filters (zlib, Fernet, WebP codec). -/
structure Config where
  max_block_size : Nat
  compression : Bool
  encryption : Bool
  comp : Bytes → Bytes
  decomp : Bytes → Bytes
  enc : Bytes → Bytes
  dec : Bytes → Bytes
  webp : Bytes → Bytes
  cache_size : Nat

/-- `_compress_data` (src/block.py lines 25-29). -/
def compressData (c : Config) (data : Bytes) : Bytes :=
  if c.compression then c.comp data else data

/-- `_decompress_data` (src/block.py lines 31-35). -/
def decompressData (c : Config) (data : Bytes) : Bytes :=
  if c.compression then c.decomp data else data

/-- `_encrypt_data` (src/block.py lines 37-41). -/
def encryptData (c : Config) (data : Bytes) : Bytes :=
  if c.encryption then c.enc data else data

/-- `_decrypt_data` (src/block.py lines 43-47). -/
def decryptData (c : Config) (data : Bytes) : Bytes :=
  if c.encryption then c.dec data else data

/-- Membership test of `block_path in self.cache`. -/
def containsKey : Cache → String → Bool
  | [], _ => false
  | p :: ps, key => p.1 == key || containsKey ps key

/-- Cached content for a key (`self.cache[block_path]`, a plain lookup that
does not touch recency). -/
def lookupEntry : Cache → String → Option Bytes
  | [], _ => none
  | p :: ps, key => if p.1 == key then some p.2 else lookupEntry ps key

/-- `OrderedDict.move_to_end`: move the entry with the given key to the
most-recently-used end, keeping its stored value. -/
def moveToEnd : Cache → String → Cache
  | [], _ => []
  | p :: ps, key => if p.1 == key then ps ++ [p] else p :: moveToEnd ps key

/-- Drop the entry with the given key (keys are unique in an `OrderedDict`). -/
def eraseKey : Cache → String → Cache
  | [], _ => []
  | p :: ps, key => if p.1 == key then ps else p :: eraseKey ps key

/-- `_cache_block` (src/block.py lines 49-63): on a hit, mark the entry most
recently used without reloading it from disk; on a miss, read the file,
append the entry at the most-recently-used end, and if the entry count now
exceeds `cache_size`, `popitem(last=False)` drops the least-recently-used
entry (the front).  `none` models the exception raised when the file cannot
be opened. -/
def cache_block (c : Config) (fs : FS) (cache : Cache) (block_path : String) :
    Option Cache :=
  if containsKey cache block_path then
    some (moveToEnd cache block_path)
  else
    match lookupFile fs block_path with
    | none => none
    | some block_data =>
      let cache1 := cache ++ [(block_path, block_data)]
      some (if cache1.length > c.cache_size then cache1.tail else cache1)

/-- `_get_current_block_path` (src/block.py lines 163-183): list the
`block_`-prefixed files, sort them with Python `sorted` (lexicographic) and
take the last; start at `block_1.bin` when there are none; if the chosen
file exists and is at or above the size ceiling, rotate to the file named by
the parsed numeric id plus one; create the chosen file empty if it does not
exist.  Returns the updated directory and the chosen file name. -/
def get_current_block_path (c : Config) (fs : FS) : FS × String :=
  let block_files := pySorted ((listdir fs).filter startsWithBlock)
  let current0 := if block_files.isEmpty then "block_1.bin"
                  else block_files.getLastD "block_1.bin"
  let current_block :=
    if existsFile fs current0 = true ∧ c.max_block_size ≤ getsize fs current0 then
      "block_" ++ Nat.repr (blockNumber current0 + 1) ++ ".bin"
    else current0
  let fs1 := if existsFile fs current_block then fs
             else setFile fs current_block []
  (fs1, current_block)

/-- The `sorted(...)[-1]` pick of `_get_current_block_path`, before the
rotation and creation steps: the lexicographically last existing
`block_`-prefixed file name (`block_1.bin` when there are none). -/
def lexLastBlockFile (fs : FS) : String :=
  (pySorted ((listdir fs).filter startsWithBlock)).getLastD "block_1.bin"

/-- The metadata dict returned by `save_image`: basename of the segment
file, byte offset, byte length. -/
structure Ref where
  block : String
  offset : Nat
  size : Nat
deriving DecidableEq

/-- `save_image` (src/block.py lines 72-100) under sequential execution: the
`isinstance(image_data, bytes)` guard always passes in this typed embedding;
the payload is WebP-converted, the current segment chosen, the offset read
as the segment's size, the data compressed then encrypted then appended.
The error branch models `raise Exception("Block not found, during
runtime.")`. -/
def save_image (c : Config) (fs : FS) (image_data : Bytes) :
    Except String (FS × Ref) :=
  let webp_data := c.webp image_data
  let pr := get_current_block_path c fs
  if existsFile pr.1 pr.2 = true then
    let offset := getsize pr.1 pr.2
    let compressed_data := compressData c webp_data
    let encrypted_data := encryptData c compressed_data
    .ok (appendFile pr.1 pr.2 encrypted_data, ⟨pr.2, offset, encrypted_data.length⟩)
  else
    .error "Block not found, during runtime."

/-- `read_image` (src/block.py lines 102-127): the `isinstance` guards always
pass in this typed embedding; the segment is cached, the cached buffer sliced
with Python slice semantics at `[offset, offset+size)`, then decrypted and
decompressed.  The error branches model `FileNotFoundError` and the
`RuntimeError` wrapper around any exception of the inner block. -/
def read_image (c : Config) (fs : FS) (cache : Cache) (block : String)
    (offset size : Int) : Except String (Cache × Bytes) :=
  if existsFile fs block = false then
    .error "Block file does not exist."
  else
    match cache_block c fs cache block with
    | none => .error "RuntimeError"
    | some cache1 =>
      match lookupEntry cache1 block with
      | none => .error "RuntimeError"
      | some block_data =>
        let image_data := pySlice block_data offset (offset + size)
        let decrypted_data := decryptData c image_data
        let decompressed_data := decompressData c decrypted_data
        .ok (cache1, decompressed_data)

/-- `delete_image` (src/block.py lines 129-156) under sequential execution:
read the whole segment, excise `[offset, offset+size)` by concatenating the
surrounding slices, and rewrite the file.  The cache is returned exactly as
received: the source never invalidates it. -/
def delete_image (_c : Config) (fs : FS) (cache : Cache) (block : String)
    (offset size : Int) : Except String (FS × Cache) :=
  if existsFile fs block = false then
    .error "Block file does not exist."
  else
    let block_data := (lookupFile fs block).getD []
    let new_block_data :=
      pySlice block_data 0 offset ++
      pySlice block_data (offset + size) (block_data.length : Int)
    .ok (setFile fs block new_block_data, cache)

/-- Failure injection points for the I/O steps of `delete_image`. -/
inductive DeleteFail where
  | noFail : DeleteFail
  /-- The initial `open(block_path, 'rb')` or its read raises. -/
  | beforeRead : DeleteFail
  /-- The rewriting `open(block_path, 'wb')` succeeded — truncating the file
  to zero bytes — and the subsequent write raises. -/
  | duringWrite : DeleteFail

/-- `delete_image` with an injected I/O failure, returning the resulting
directory and whether the call succeeded.  `open(block_path, 'wb')`
truncates the file before anything is written, so a failure during the
write leaves the file truncated, not with its old content. -/
def delete_image_run (fs : FS) (block : String) (offset size : Int)
    (f : DeleteFail) : FS × Bool :=
  if existsFile fs block = false then (fs, false)
  else
    match f with
    | .beforeRead => (fs, false)
    | .duringWrite => (setFile fs block [], false)
    | .noFail =>
      let block_data := (lookupFile fs block).getD []
      let new_block_data :=
        pySlice block_data 0 offset ++
        pySlice block_data (offset + size) (block_data.length : Int)
      (setFile fs block new_block_data, true)

/-- Two concurrent `save_image` calls under the source's per-call
`asyncio.Lock()` (src/block.py line 79): each call constructs a fresh,
uncontended lock, so the schedule in which both tasks pick their segment
and offset before either append lands is permitted.  This function runs
exactly that schedule and returns the final directory and both refs. -/
def two_saves_fresh_lock (c : Config) (fs : FS) (p1 p2 : Bytes) :
    FS × Ref × Ref :=
  let e1 := encryptData c (compressData c (c.webp p1))
  let e2 := encryptData c (compressData c (c.webp p2))
  let pr1 := get_current_block_path c fs
  let off1 := getsize pr1.1 pr1.2
  let pr2 := get_current_block_path c pr1.1
  let off2 := getsize pr2.1 pr2.2
  let fsA := appendFile pr2.1 pr1.2 e1
  let fsB := appendFile fsA pr2.2 e2
  (fsB, ⟨pr1.2, off1, e1.length⟩, ⟨pr2.2, off2, e2.length⟩)

/-- Bytes produced by a successful read, if any. -/
def readBytes (r : Except String (Cache × Bytes)) : Option Bytes :=
  match r with
  | .ok pr => some pr.2
  | .error _ => none

/-- Cache state left by a successful read, if any. -/
def readCache (r : Except String (Cache × Bytes)) : Option Cache :=
  match r with
  | .ok pr => some pr.1
  | .error _ => none

/-- Ref returned by a successful save, if any. -/
def saveRef (r : Except String (FS × Ref)) : Option Ref :=
  match r with
  | .ok pr => some pr.2
  | .error _ => none

/-- Directory left by a successful save, if any. -/
def saveFS (r : Except String (FS × Ref)) : Option FS :=
  match r with
  | .ok pr => some pr.1
  | .error _ => none

/-- Whether a save succeeded. -/
def isOkSave (r : Except String (FS × Ref)) : Bool :=
  match r with
  | .ok _ => true
  | .error _ => false

/-- Cache left by a successful delete, if any. -/
def deleteCache (r : Except String (FS × Cache)) : Option Cache :=
  match r with
  | .ok pr => some pr.2
  | .error _ => none

/-- Directory left by a successful delete, if any. -/
def deleteFS (r : Except String (FS × Cache)) : Option FS :=
  match r with
  | .ok pr => some pr.1
  | .error _ => none

/-- A configuration with both filters disabled and identity collaborators,
used for concrete runs. -/
def plainConfig (maxSize cacheSize : Nat) : Config :=
  { max_block_size := maxSize
    compression := false
    encryption := false
    comp := id
    decomp := id
    enc := id
    dec := id
    webp := id
    cache_size := cacheSize }

/-! Order facts about Python's string comparison. -/

theorem charListLt_irrefl (a : List Char) : charListLt a a = false := by
  induction a with
  | nil => rfl
  | cons x xs ih => simp [charListLt, ih]

theorem charListLt_asymm {a b : List Char} (h : charListLt a b = true) :
    charListLt b a = false := by
  induction a generalizing b with
  | nil =>
    cases b with
    | nil => simp [charListLt] at h
    | cons y ys => rfl
  | cons x xs ih =>
    cases b with
    | nil => simp [charListLt] at h
    | cons y ys =>
      simp only [charListLt] at h ⊢
      rcases Nat.lt_trichotomy x.toNat y.toNat with h1 | h1 | h1
      · simp [h1, Nat.lt_asymm h1]
      · simp only [h1, Nat.lt_irrefl, if_false] at h ⊢
        exact ih h
      · simp [h1, Nat.lt_asymm h1] at h

theorem charListLt_trans {a b c : List Char} (hab : charListLt a b = true)
    (hbc : charListLt b c = true) : charListLt a c = true := by
  induction a generalizing b c with
  | nil =>
    cases c with
    | nil => cases b <;> simp [charListLt] at hbc
    | cons z zs => rfl
  | cons x xs ih =>
    cases b with
    | nil => simp [charListLt] at hab
    | cons y ys =>
      cases c with
      | nil => simp [charListLt] at hbc
      | cons z zs =>
        simp only [charListLt] at hab hbc ⊢
        rcases Nat.lt_trichotomy x.toNat y.toNat with h1 | h1 | h1 <;>
          rcases Nat.lt_trichotomy y.toNat z.toNat with h2 | h2 | h2
        · simp [Nat.lt_trans h1 h2]
        · simp [h2 ▸ h1]
        · simp [h2, Nat.lt_asymm h2] at hbc
        · simp [h1 ▸ h2]
        · have h3 : x.toNat = z.toNat := h1.trans h2
          simp only [h1, Nat.lt_irrefl, if_false] at hab
          simp only [h2, Nat.lt_irrefl, if_false] at hbc
          simp only [h3, Nat.lt_irrefl, if_false]
          exact ih hab hbc
        · simp [h2, Nat.lt_asymm h2] at hbc
        · simp [h1, Nat.lt_asymm h1] at hab
        · simp [h1, Nat.lt_asymm h1] at hab
        · simp [h1, Nat.lt_asymm h1] at hab

theorem strLt_irrefl (a : String) : strLt a a = false := charListLt_irrefl a.data

theorem strLt_asymm {a b : String} (h : strLt a b = true) : strLt b a = false :=
  charListLt_asymm h

theorem strLt_trans {a b c : String} (h1 : strLt a b = true)
    (h2 : strLt b c = true) : strLt a c = true :=
  charListLt_trans h1 h2

/-! Facts about the model of Python `sorted`. -/

theorem insertStr_ne_nil (x : String) (l : List String) : insertStr x l ≠ [] := by
  cases l with
  | nil => simp [insertStr]
  | cons y ys =>
    simp only [insertStr]
    split_ifs <;> simp

theorem mem_insertStr {a x : String} {l : List String} :
    a ∈ insertStr x l ↔ a = x ∨ a ∈ l := by
  induction l with
  | nil => simp [insertStr]
  | cons y ys ih =>
    simp only [insertStr]
    split_ifs with h
    · simp [List.mem_cons]
    · simp only [List.mem_cons, ih]
      tauto

theorem mem_pySorted {a : String} {l : List String} : a ∈ pySorted l ↔ a ∈ l := by
  induction l with
  | nil => simp [pySorted]
  | cons x xs ih => simp [pySorted, mem_insertStr, ih]

theorem pySorted_ne_nil {l : List String} (h : l ≠ []) : pySorted l ≠ [] := by
  cases l with
  | nil => exact absurd rfl h
  | cons x xs =>
    simp only [pySorted]
    exact insertStr_ne_nil _ _

theorem pairwise_insertStr {x : String} {l : List String}
    (h : l.Pairwise (fun u v => strLt v u = false)) :
    (insertStr x l).Pairwise (fun u v => strLt v u = false) := by
  induction l with
  | nil => simp [insertStr]
  | cons y ys ih =>
    rcases List.pairwise_cons.mp h with ⟨h1, h2⟩
    simp only [insertStr]
    split_ifs with hxy
    · refine List.pairwise_cons.mpr ⟨?_, h⟩
      intro v hv
      rcases List.mem_cons.mp hv with rfl | hv'
      · exact strLt_asymm hxy
      · cases hvx : strLt v x with
        | false => rfl
        | true =>
          have hvy := strLt_trans hvx hxy
          simp [h1 v hv'] at hvy
    · refine List.pairwise_cons.mpr ⟨?_, ih h2⟩
      intro v hv
      rcases mem_insertStr.mp hv with rfl | hv'
      · simpa using hxy
      · exact h1 v hv'

theorem pairwise_pySorted (l : List String) :
    (pySorted l).Pairwise (fun u v => strLt v u = false) := by
  induction l with
  | nil => simp [pySorted]
  | cons x xs ih => exact pairwise_insertStr ih

theorem getLastD_mem {l : List String} (h : l ≠ []) (d : String) :
    l.getLastD d ∈ l := by
  induction l generalizing d with
  | nil => exact absurd rfl h
  | cons x xs ih =>
    cases xs with
    | nil => simp [List.getLastD_cons]
    | cons y ys =>
      rw [List.getLastD_cons]
      exact List.mem_cons_of_mem _ (ih (by simp) x)

theorem pairwise_le_getLastD {l : List String}
    (hp : l.Pairwise (fun u v => strLt v u = false)) {a : String} (ha : a ∈ l)
    (d : String) : strLt (l.getLastD d) a = false := by
  induction l generalizing d with
  | nil => cases ha
  | cons x xs ih =>
    rcases List.pairwise_cons.mp hp with ⟨h1, h2⟩
    cases xs with
    | nil =>
      rcases List.mem_cons.mp ha with h' | h'
      · subst h'
        simp only [List.getLastD_cons, List.getLastD_nil]
        exact strLt_irrefl a
      · cases h'
    | cons y ys =>
      rw [List.getLastD_cons]
      rcases List.mem_cons.mp ha with h' | h'
      · subst h'
        exact h1 _ (getLastD_mem (by simp) a)
      · exact ih h2 h' x

theorem isEmpty_eq_false_of_ne_nil {l : List String} (h : l ≠ []) :
    l.isEmpty = false := by
  cases l with
  | nil => exact absurd rfl h
  | cons x xs => rfl

/-! Facts about the directory model. -/

theorem lookupFile_setFile_self (fs : FS) (n : String) (d : Bytes) :
    lookupFile (setFile fs n d) n = some d := by
  induction fs with
  | nil => simp [setFile, lookupFile]
  | cons p ps ih =>
    by_cases hp : (p.1 == n) = true
    · simp [setFile, lookupFile, hp]
    · simp [setFile, lookupFile, hp, ih]

theorem existsFile_setFile_self (fs : FS) (n : String) (d : Bytes) :
    existsFile (setFile fs n d) n = true := by
  simp [existsFile, lookupFile_setFile_self]

/-- The file chosen by `_get_current_block_path` always exists afterwards:
line 180 of src/block.py creates it empty when absent. -/
theorem exists_get_current (c : Config) (fs : FS) :
    existsFile (get_current_block_path c fs).1 (get_current_block_path c fs).2 =
      true := by
  simp only [get_current_block_path]
  split_ifs <;> first | assumption | exact existsFile_setFile_self fs _ []

/-! Facts about the cache model. -/

theorem lookupEntry_eq_none_of_not_containsKey {cache : Cache} {key : String}
    (h : containsKey cache key = false) : lookupEntry cache key = none := by
  induction cache with
  | nil => rfl
  | cons p ps ih =>
    by_cases hp : (p.1 == key) = true
    · simp [containsKey, hp] at h
    · have h' : containsKey ps key = false := by simpa [containsKey, hp] using h
      simp [lookupEntry, hp, ih h']

theorem lookupEntry_append_self {cache : Cache} {key : String}
    (h : lookupEntry cache key = none) (d : Bytes) :
    lookupEntry (cache ++ [(key, d)]) key = some d := by
  induction cache with
  | nil => simp [lookupEntry]
  | cons p ps ih =>
    by_cases hp : (p.1 == key) = true
    · simp [lookupEntry, hp] at h
    · have h' : lookupEntry ps key = none := by simpa [lookupEntry, hp] using h
      simpa [lookupEntry, hp] using ih h'

theorem lookupEntry_tail_of_none {cache : Cache} {key : String}
    (h : lookupEntry cache key = none) :
    lookupEntry cache.tail key = none := by
  cases cache with
  | nil => rfl
  | cons p ps =>
    by_cases hp : (p.1 == key) = true
    · simp [lookupEntry, hp] at h
    · simpa [lookupEntry, hp] using h

theorem length_moveToEnd {cache : Cache} {key : String}
    (h : containsKey cache key = true) :
    (moveToEnd cache key).length = cache.length := by
  induction cache with
  | nil => simp [containsKey] at h
  | cons p ps ih =>
    by_cases hp : (p.1 == key) = true
    · simp [moveToEnd, hp]
    · have h' : containsKey ps key = true := by simpa [containsKey, hp] using h
      simp [moveToEnd, hp, ih h']

theorem moveToEnd_eq {cache : Cache} {key : String} {v : Bytes}
    (h : lookupEntry cache key = some v) :
    moveToEnd cache key = eraseKey cache key ++ [(key, v)] := by
  induction cache with
  | nil => simp [lookupEntry] at h
  | cons p ps ih =>
    obtain ⟨p1, p2⟩ := p
    by_cases hp : (p1 == key) = true
    · have hk : p1 = key := eq_of_beq hp
      have hv : p2 = v := by simpa [lookupEntry, hp] using h
      subst hk
      subst hv
      simp [moveToEnd, eraseKey, hp]
    · have h' : lookupEntry ps key = some v := by simpa [lookupEntry, hp] using h
      simp [moveToEnd, eraseKey, hp, ih h']

/-! Facts about the byte filters and Python slices. -/

theorem decrypt_encrypt (c : Config) (hdec : ∀ b, c.dec (c.enc b) = b)
    (x : Bytes) : decryptData c (encryptData c x) = x := by
  unfold decryptData encryptData
  split_ifs with h
  · exact hdec x
  · rfl

theorem decompress_compress (c : Config) (hdecomp : ∀ b, c.decomp (c.comp b) = b)
    (x : Bytes) : decompressData c (compressData c x) = x := by
  unfold decompressData compressData
  split_ifs with h
  · exact hdecomp x
  · rfl

theorem pySlice_append_suffix (old e : Bytes) :
    pySlice (old ++ e) (old.length : Int)
      ((old.length : Int) + (e.length : Int)) = e := by
  simp only [pySlice, pyBound, List.length_append]
  have h0 : ¬ ((old.length : Int) < 0) := by omega
  have h1 : ¬ ((old.length : Int) + (e.length : Int) < 0) := by omega
  have h2 : ((old.length : Int)).toNat = old.length := by omega
  have h3 : (((old.length : Int)) + (e.length : Int)).toNat =
      old.length + e.length := by omega
  rw [if_neg h0, if_neg h1, h2, h3, Nat.min_self,
    Nat.min_eq_left (Nat.le_add_right _ _), List.drop_left,
    Nat.add_sub_cancel_left, List.take_length]

theorem pySlice_overrun (d : Bytes) (offset size : Int) (h0 : 0 ≤ offset)
    (hle : offset.toNat ≤ d.length) (hover : (d.length : Int) < offset + size) :
    pySlice d offset (offset + size) = d.drop offset.toNat := by
  simp only [pySlice, pyBound]
  have hn0 : ¬ (offset < 0) := by omega
  have hn1 : ¬ (offset + size < 0) := by omega
  rw [if_neg hn0, if_neg hn1, Nat.min_eq_left hle,
    Nat.min_eq_right (show d.length ≤ (offset + size).toNat by omega)]
  have hdl : (d.drop offset.toNat).length = d.length - offset.toNat :=
    List.length_drop _ _
  rw [← hdl, List.take_length]

/-! The claims. -/

/-- C1, counterexample: with `block_2.bin` and `block_10.bin` present (both
below the size ceiling), `_get_current_block_path` picks `block_2.bin`, the
lexicographically last name, even though `block_10.bin` has the higher
parsed numeric id — refuting the claim that the current segment is the file
with the highest parsed id. -/
theorem C1_counterexample :
    (get_current_block_path (plainConfig 100 5)
        [("block_2.bin", [0]), ("block_10.bin", [0])]).2 = "block_2.bin" ∧
    blockNumber "block_2.bin" < blockNumber "block_10.bin" := by decide

/-- C1, amended: when at least one `block_`-prefixed file exists and the
`sorted(...)[-1]` pick is below the size ceiling, `_get_current_block_path`
returns the lexicographically greatest `block_`-prefixed file name (Python
string order), not the file with the highest parsed numeric id. -/
theorem C1_current_segment_is_lexicographic_max (c : Config) (fs : FS)
    (hne : (listdir fs).filter startsWithBlock ≠ [])
    (hnotfull : ¬ (existsFile fs (lexLastBlockFile fs) = true ∧
        c.max_block_size ≤ getsize fs (lexLastBlockFile fs))) :
    (get_current_block_path c fs).2 = lexLastBlockFile fs ∧
    lexLastBlockFile fs ∈ (listdir fs).filter startsWithBlock ∧
    ∀ f ∈ (listdir fs).filter startsWithBlock,
      strLt (lexLastBlockFile fs) f = false := by
  have hsne : pySorted ((listdir fs).filter startsWithBlock) ≠ [] :=
    pySorted_ne_nil hne
  simp only [lexLastBlockFile] at hnotfull ⊢
  refine ⟨?_, ?_, ?_⟩
  · have hEmpty :
        ¬ ((pySorted ((listdir fs).filter startsWithBlock)).isEmpty = true) := by
      rw [isEmpty_eq_false_of_ne_nil hsne]
      exact Bool.false_ne_true
    simp only [get_current_block_path]
    rw [if_neg hEmpty, if_neg hnotfull]
  · exact mem_pySorted.mp (getLastD_mem hsne _)
  · intro f hf
    exact pairwise_le_getLastD (pairwise_pySorted _) (mem_pySorted.mpr hf) _

/-- C1, witness for the amended claim at the directory holding
`block_2.bin` and `block_10.bin`. -/
theorem C1_current_segment_is_lexicographic_max_witness :
    (get_current_block_path (plainConfig 100 5)
        [("block_2.bin", [0]), ("block_10.bin", [0])]).2 =
      lexLastBlockFile [("block_2.bin", [0]), ("block_10.bin", [0])] ∧
    lexLastBlockFile [("block_2.bin", [0]), ("block_10.bin", [0])] ∈
      (listdir [("block_2.bin", [0]), ("block_10.bin", [0])]).filter
        startsWithBlock ∧
    ∀ f ∈ (listdir [("block_2.bin", [0]), ("block_10.bin", [0])]).filter
        startsWithBlock,
      strLt (lexLastBlockFile [("block_2.bin", [0]), ("block_10.bin", [0])]) f =
        false :=
  C1_current_segment_is_lexicographic_max (plainConfig 100 5)
    [("block_2.bin", [0]), ("block_10.bin", [0])] (by decide) (by decide)

/-- C2, counterexample: with `maxSegmentSizeBytes = 100` and an empty
directory, a first save of 60 final bytes returns segment 1 offset 0 length
60, but the second save of 60 final bytes does NOT rotate: the fullness
check compares the pre-write size 60 against the ceiling 100, so the second
save returns segment 1, offset 60, length 60 — not the claimed segment 2,
offset 0. -/
theorem C2_counterexample :
    saveFS (save_image (plainConfig 100 5) [] (List.replicate 60 0)) =
      some [("block_1.bin", List.replicate 60 0)] ∧
    saveRef (save_image (plainConfig 100 5) [] (List.replicate 60 0)) =
      some ⟨"block_1.bin", 0, 60⟩ ∧
    saveRef (save_image (plainConfig 100 5) [("block_1.bin", List.replicate 60 0)]
        (List.replicate 60 0)) = some ⟨"block_1.bin", 60, 60⟩ ∧
    (⟨"block_1.bin", 60, 60⟩ : Ref) ≠ ⟨"block_2.bin", 0, 60⟩ := by decide

/-- C2, amended: with `maxSegmentSizeBytes = 100`, the first save of 60
final bytes returns segment 1 offset 0; the second save appends to segment
1 at offset 60 (rotation only triggers when the segment's size is already
at or above the ceiling before the write); the third save then finds
segment 1 at 120 bytes and rotates to segment 2 at offset 0. -/
theorem C2_rotation_scenario :
    saveFS (save_image (plainConfig 100 5) [] (List.replicate 60 0)) =
      some [("block_1.bin", List.replicate 60 0)] ∧
    saveRef (save_image (plainConfig 100 5) [] (List.replicate 60 0)) =
      some ⟨"block_1.bin", 0, 60⟩ ∧
    saveFS (save_image (plainConfig 100 5) [("block_1.bin", List.replicate 60 0)]
        (List.replicate 60 0)) =
      some [("block_1.bin", List.replicate 120 0)] ∧
    saveRef (save_image (plainConfig 100 5) [("block_1.bin", List.replicate 60 0)]
        (List.replicate 60 0)) = some ⟨"block_1.bin", 60, 60⟩ ∧
    saveRef (save_image (plainConfig 100 5)
        [("block_1.bin", List.replicate 120 0)] (List.replicate 60 0)) =
      some ⟨"block_2.bin", 0, 60⟩ := by decide

/-- C9: under the source's per-call `asyncio.Lock()`, two concurrent saves
on an empty store may both compute offset 0 of `block_1.bin` before either
append lands, so both calls return the identical (hence overlapping) ref
while both payloads end up in the file — the claimed distinct,
non-overlapping ranges are not guaranteed by the code's locking. -/
theorem C9_fresh_lock_overlapping_refs :
    (two_saves_fresh_lock (plainConfig 100 5) [] [1] [2]).2.1 =
      ⟨"block_1.bin", 0, 1⟩ ∧
    (two_saves_fresh_lock (plainConfig 100 5) [] [1] [2]).2.2 =
      ⟨"block_1.bin", 0, 1⟩ ∧
    (two_saves_fresh_lock (plainConfig 100 5) [] [1] [2]).1 =
      [("block_1.bin", [1, 2])] := by decide

/-- C10: the error branch `raise Exception("Block not found, during
runtime.")` in `save_image` is unreachable under sequential execution:
`_get_current_block_path` always creates the chosen segment file before
returning, so the existence check in `save_image` succeeds and every
sequential save takes the success path. -/
theorem C10_save_error_branch_unreachable (c : Config) (fs : FS) (p : Bytes) :
    existsFile (get_current_block_path c fs).1 (get_current_block_path c fs).2 =
      true ∧
    isOkSave (save_image c fs p) = true := by
  refine ⟨exists_get_current c fs, ?_⟩
  simp [save_image, exists_get_current, isOkSave]

/-- C3, counterexample: with segment content `[1,2,3,4]` cached, a read at
offset 2 of length 10 (so offset + length = 12 exceeds the buffer length 4)
does not fail: it silently returns the truncated two-byte slice `[3,4]` —
there is no `OutOfRangeError` anywhere in the code. -/
theorem C3_counterexample :
    readBytes (read_image (plainConfig 100 5) [("block_1.bin", [1, 2, 3, 4])]
        [("block_1.bin", [1, 2, 3, 4])] "block_1.bin" 2 10) = some [3, 4] ∧
    ([3, 4] : Bytes).length < 10 := by decide

/-- C3, amended: when `offset + length` exceeds the length of the cached
buffer (with `0 ≤ offset ≤ buffer length`), `read_image` succeeds and
silently returns the clamped Python slice — the suffix of the buffer from
`offset` — whose length is strictly smaller than the requested length; it
never fails with an `OutOfRangeError`. -/
theorem C3_overrun_returns_truncated_slice (c : Config) (fs : FS)
    (block : String) (d : Bytes) (offset size : Int)
    (hcomp : c.compression = false) (henc : c.encryption = false)
    (hex : existsFile fs block = true)
    (h0 : 0 ≤ offset) (hle : offset.toNat ≤ d.length)
    (hover : (d.length : Int) < offset + size) :
    readBytes (read_image c fs [(block, d)] block offset size) =
      some (d.drop offset.toNat) ∧
    ((d.drop offset.toNat).length : Int) < size := by
  constructor
  · have hcb : cache_block c fs [(block, d)] block = some [(block, d)] := by
      simp [cache_block, containsKey, moveToEnd]
    have hle' : lookupEntry [(block, d)] block = some d := by simp [lookupEntry]
    simp [read_image, hex, hcb, hle', readBytes, decryptData, decompressData,
      hcomp, henc, pySlice_overrun d offset size h0 hle hover]
  · have hdl : (d.drop offset.toNat).length = d.length - offset.toNat :=
      List.length_drop _ _
    rw [hdl]
    omega

/-- C3, witness for the amended claim: cached buffer `[1,2,3,4]`, offset 1,
requested length 99 — the read returns the three-byte suffix. -/
theorem C3_overrun_returns_truncated_slice_witness :
    readBytes (read_image (plainConfig 100 5) [("block_1.bin", [1, 2, 3, 4])]
        [("block_1.bin", [1, 2, 3, 4])] "block_1.bin" 1 99) =
      some (([1, 2, 3, 4] : Bytes).drop (1 : Int).toNat) ∧
    (((([1, 2, 3, 4] : Bytes).drop (1 : Int).toNat).length : Int)) < 99 :=
  C3_overrun_returns_truncated_slice (plainConfig 100 5)
    [("block_1.bin", [1, 2, 3, 4])] "block_1.bin" [1, 2, 3, 4] 1 99
    rfl rfl (by decide) (by decide) (by decide) (by decide)

/-- C4, counterexample: a successful delete rewrites the file from
`[1,2,3,4]` to `[1,4]` but returns the cache untouched: the cache still
holds the pre-delete entry `[1,2,3,4]` for that segment, and a subsequent
read of the segment is served from that stale entry, returning the
pre-delete bytes — refuting the claim that delete invalidates the cache
entry. -/
theorem C4_counterexample :
    deleteFS (delete_image (plainConfig 100 5) [("block_1.bin", [1, 2, 3, 4])]
        [("block_1.bin", [1, 2, 3, 4])] "block_1.bin" 1 2) =
      some [("block_1.bin", [1, 4])] ∧
    deleteCache (delete_image (plainConfig 100 5) [("block_1.bin", [1, 2, 3, 4])]
        [("block_1.bin", [1, 2, 3, 4])] "block_1.bin" 1 2) =
      some [("block_1.bin", [1, 2, 3, 4])] ∧
    lookupEntry [("block_1.bin", [1, 2, 3, 4])] "block_1.bin" =
      some [1, 2, 3, 4] ∧
    readBytes (read_image (plainConfig 100 5) [("block_1.bin", [1, 4])]
        [("block_1.bin", [1, 2, 3, 4])] "block_1.bin" 0 4) =
      some [1, 2, 3, 4] ∧
    some ([1, 2, 3, 4] : Bytes) ≠ some ([1, 4] : Bytes) := by decide

/-- C4, amended: `delete_image` never touches the cache — after every
successful delete the cache is exactly the cache passed in, so any entry
for the rewritten segment survives and subsequent reads of that segment are
served from the stale pre-delete copy. -/
theorem C4_delete_leaves_cache_untouched (c : Config) (fs fs1 : FS)
    (cache cache1 : Cache) (block : String) (offset size : Int)
    (h : delete_image c fs cache block offset size = Except.ok (fs1, cache1)) :
    cache1 = cache := by
  simp only [delete_image] at h
  split_ifs at h with hex <;>
    first
      | exact Except.noConfusion h
      | (simp only [Except.ok.injEq, Prod.mk.injEq] at h
         exact h.2.symm)

/-- C4, witness for the amended claim at a concrete delete. -/
theorem C4_delete_leaves_cache_untouched_witness :
    ([("x", [9])] : Cache) = [("x", [9])] :=
  C4_delete_leaves_cache_untouched (plainConfig 100 5)
    [("block_1.bin", [1, 2, 3])] [("block_1.bin", [1, 3])]
    [("x", [9])] [("x", [9])] "block_1.bin" 1 1 rfl

/-- C5, counterexample: a delete of `[1,2)` from a segment holding
`[1,2,3,4]` that fails during the rewriting write leaves the segment file
truncated to empty — not with its pre-call content — because
`open(path, 'wb')` truncates before the write runs. -/
theorem C5_counterexample :
    delete_image_run [("block_1.bin", [1, 2, 3, 4])] "block_1.bin" 1 2
        DeleteFail.duringWrite = ([("block_1.bin", [])], false) ∧
    ([] : Bytes) ≠ [1, 2, 3, 4] := by decide

/-- C5, amended: delete is not atomic with respect to errors: a failure
before the rewriting open leaves the segment file unchanged, but a failure
during the write — after `open(path, 'wb')` has truncated the file — leaves
the segment file empty rather than with its pre-call content. -/
theorem C5_failed_delete_not_atomic (fs : FS) (block : String)
    (offset size : Int) (hex : existsFile fs block = true) :
    delete_image_run fs block offset size DeleteFail.beforeRead = (fs, false) ∧
    delete_image_run fs block offset size DeleteFail.duringWrite =
      (setFile fs block [], false) := by
  simp [delete_image_run, hex]

/-- C5, witness for the amended claim at a concrete one-byte segment. -/
theorem C5_failed_delete_not_atomic_witness :
    delete_image_run [("block_1.bin", [7])] "block_1.bin" 0 1
        DeleteFail.beforeRead = ([("block_1.bin", [7])], false) ∧
    delete_image_run [("block_1.bin", [7])] "block_1.bin" 0 1
        DeleteFail.duringWrite =
      (setFile [("block_1.bin", [7])] "block_1.bin" [], false) :=
  C5_failed_delete_not_atomic [("block_1.bin", [7])] "block_1.bin" 0 1
    (by decide)

/-- C6, counterexample: a read with negative offset `-2` is not rejected:
Python slice semantics index from the end of the buffer and the call
returns `[30]`; a read with negative length `-1` likewise returns the bytes
`[10, 20, 30]` — no `InvalidInputError` is raised for negative values. -/
theorem C6_counterexample :
    readBytes (read_image (plainConfig 100 5) [("block_1.bin", [10, 20, 30, 40])]
        [] "block_1.bin" (-2) 1) = some [30] ∧
    readBytes (read_image (plainConfig 100 5) [("block_1.bin", [10, 20, 30, 40])]
        [] "block_1.bin" 0 (-1)) = some [10, 20, 30] := by decide

/-- C6, amended: `read_image` validates only the argument types, not their
signs: for a negative offset or negative length the call succeeds and
returns the Python slice `data[offset : offset+length]` of the segment
content (negative indices counting from the end), never an
`InvalidInputError`. -/
theorem C6_negative_bounds_return_python_slice (c : Config) (fs : FS)
    (block : String) (d : Bytes) (offset size : Int)
    (hcomp : c.compression = false) (henc : c.encryption = false)
    (hcs : 1 ≤ c.cache_size)
    (hfile : lookupFile fs block = some d)
    (hneg : offset < 0 ∨ size < 0) :
    readBytes (read_image c fs [] block offset size) =
      some (pySlice d offset (offset + size)) := by
  have hex : existsFile fs block = true := by simp [existsFile, hfile]
  have hnz : ¬ (c.cache_size = 0) := by omega
  have hcb : cache_block c fs [] block = some [(block, d)] := by
    simp [cache_block, containsKey, hfile, hnz]
  have hle : lookupEntry [(block, d)] block = some d := by simp [lookupEntry]
  simp [read_image, hex, hcb, hle, readBytes, decryptData, decompressData,
    hcomp, henc]

/-- C6, witness for the amended claim: offset `-1`, length 5 on the
three-byte segment `[5,6,7]`. -/
theorem C6_negative_bounds_return_python_slice_witness :
    readBytes (read_image (plainConfig 100 5) [("block_1.bin", [5, 6, 7])] []
        "block_1.bin" (-1) 5) =
      some (pySlice [5, 6, 7] (-1) ((-1) + 5)) :=
  C6_negative_bounds_return_python_slice (plainConfig 100 5)
    [("block_1.bin", [5, 6, 7])] "block_1.bin" [5, 6, 7] (-1) 5
    rfl rfl (by decide) (by decide) (Or.inl (by decide))

/-- Reading back exactly the appended suffix of a freshly rewritten file:
if the segment is not yet cached, the read loads the file, the slice at
`[old.length, old.length + e.length)` is `e`, and the configured filters
are reversed on it. -/
theorem read_after_append (c : Config) (fs : FS) (cache : Cache) (path : String)
    (old e : Bytes)
    (hnc : containsKey cache path = false)
    (hcs : 1 ≤ c.cache_size) :
    readBytes (read_image c (setFile fs path (old ++ e)) cache path
      (old.length : Int) (e.length : Int)) =
      some (decompressData c (decryptData c e)) := by
  have hl : lookupFile (setFile fs path (old ++ e)) path = some (old ++ e) :=
    lookupFile_setFile_self fs path (old ++ e)
  have hex : existsFile (setFile fs path (old ++ e)) path = true := by
    simp [existsFile, hl]
  have hnone : lookupEntry cache path = none :=
    lookupEntry_eq_none_of_not_containsKey hnc
  have hslice : pySlice (old ++ e) (old.length : Int)
      ((old.length : Int) + (e.length : Int)) = e := pySlice_append_suffix old e
  by_cases hev : (cache ++ [(path, old ++ e)]).length > c.cache_size
  · have hcn : cache ≠ [] := by
      intro hnil
      rw [hnil] at hev
      simp at hev
      omega
    have htail : (cache ++ [(path, old ++ e)]).tail =
        cache.tail ++ [(path, old ++ e)] :=
      List.tail_append_singleton_of_ne_nil hcn
    have hcb : cache_block c (setFile fs path (old ++ e)) cache path =
        some (cache.tail ++ [(path, old ++ e)]) := by
      simp only [cache_block, hnc, Bool.false_eq_true, if_false, hl]
      rw [if_pos hev, htail]
    have hle2 : lookupEntry (cache.tail ++ [(path, old ++ e)]) path =
        some (old ++ e) :=
      lookupEntry_append_self (lookupEntry_tail_of_none hnone) _
    simp [read_image, hex, hcb, hle2, readBytes, hslice]
  · have hcb : cache_block c (setFile fs path (old ++ e)) cache path =
        some (cache ++ [(path, old ++ e)]) := by
      simp only [cache_block, hnc, Bool.false_eq_true, if_false, hl]
      rw [if_neg hev]
    have hle2 : lookupEntry (cache ++ [(path, old ++ e)]) path =
        some (old ++ e) :=
      lookupEntry_append_self hnone _
    simp [read_image, hex, hcb, hle2, readBytes, hslice]

/-- C7, counterexample: the round-trip law fails when the segment was
cached before the save: save `[1,1,1]` to segment 1, read it back (which
caches the 3-byte segment), save `[2,2,2]` (appending to the file without
touching the cache), then read the second ref with no intervening mutation
of the segment — the read is served from the stale 3-byte cache entry, the
slice `[3:6]` of it is empty, and the call returns `[]` instead of the
filtered payload `[2,2,2]` (filters disabled, codec the identity). -/
theorem C7_counterexample :
    saveFS (save_image (plainConfig 100 5) [] [1, 1, 1]) =
      some [("block_1.bin", [1, 1, 1])] ∧
    saveRef (save_image (plainConfig 100 5) [] [1, 1, 1]) =
      some ⟨"block_1.bin", 0, 3⟩ ∧
    readCache (read_image (plainConfig 100 5) [("block_1.bin", [1, 1, 1])] []
        "block_1.bin" 0 3) = some [("block_1.bin", [1, 1, 1])] ∧
    saveFS (save_image (plainConfig 100 5) [("block_1.bin", [1, 1, 1])]
        [2, 2, 2]) = some [("block_1.bin", [1, 1, 1, 2, 2, 2])] ∧
    saveRef (save_image (plainConfig 100 5) [("block_1.bin", [1, 1, 1])]
        [2, 2, 2]) = some ⟨"block_1.bin", 3, 3⟩ ∧
    readBytes (read_image (plainConfig 100 5)
        [("block_1.bin", [1, 1, 1, 2, 2, 2])] [("block_1.bin", [1, 1, 1])]
        "block_1.bin" 3 3) = some [] ∧
    some ([] : Bytes) ≠ some ([2, 2, 2] : Bytes) := by decide

/-- C7, amended: the round-trip law holds provided the segment of the
returned ref is not in the cache at read time (so the read loads the
post-save file): for every payload, every combination of compression on/off
and encryption on/off (with the external filters inverting on the written
value), and a positive cache capacity, reading the returned ref yields
exactly the codec-transformed (WebP) form of the payload. -/
theorem C7_roundtrip_after_save (c : Config) (fs fs1 : FS) (cache : Cache)
    (p : Bytes) (r : Ref)
    (hdec : ∀ b, c.dec (c.enc b) = b)
    (hdecomp : ∀ b, c.decomp (c.comp b) = b)
    (hsave : save_image c fs p = Except.ok (fs1, r))
    (hnc : containsKey cache r.block = false)
    (hcs : 1 ≤ c.cache_size) :
    readBytes (read_image c fs1 cache r.block (r.offset : Int) (r.size : Int)) =
      some (c.webp p) := by
  simp only [save_image] at hsave
  by_cases hex : existsFile (get_current_block_path c fs).1
      (get_current_block_path c fs).2 = true
  · rw [if_pos hex] at hsave
    simp only [Except.ok.injEq, Prod.mk.injEq] at hsave
    obtain ⟨hfs1, hr⟩ := hsave
    subst hfs1
    subst hr
    simp only [appendFile, getsize] at hnc ⊢
    rw [read_after_append c (get_current_block_path c fs).1 cache
      (get_current_block_path c fs).2
      ((lookupFile (get_current_block_path c fs).1
        (get_current_block_path c fs).2).getD [])
      (encryptData c (compressData c (c.webp p))) hnc hcs,
      decrypt_encrypt c hdec, decompress_compress c hdecomp]
  · rw [if_neg hex] at hsave
    exact Except.noConfusion hsave

/-- C7, witness for the amended claim: a single save of `[5]` into an empty
store with identity filters, read back through an empty cache. -/
theorem C7_roundtrip_after_save_witness :
    readBytes (read_image (plainConfig 100 5) [("block_1.bin", [5])] []
        "block_1.bin" (0 : Int) (1 : Int)) = some [5] :=
  C7_roundtrip_after_save (plainConfig 100 5) [] [("block_1.bin", [5])] []
    [5] ⟨"block_1.bin", 0, 1⟩ (fun _ => rfl) (fun _ => rfl) rfl rfl
    (by decide)

/-- C8: the LRU cache invariant of `_cache_block`: starting from a cache
within its bound, (a) the cache stays within the bound after the call;
(b) on a hit the cached entry is moved to the most-recently-used end with
its stored (not reloaded) content; (c) on a miss that would overflow a full
cache, exactly the least-recently-used entry (the front) is evicted and
the new entry becomes most recently used. -/
theorem C8_lru_cache_invariant (c : Config) (fs : FS) (cache cache1 : Cache)
    (key : String)
    (hb : cache.length ≤ c.cache_size)
    (hrun : cache_block c fs cache key = some cache1) :
    cache1.length ≤ c.cache_size ∧
    (∀ v, lookupEntry cache key = some v →
      cache1 = eraseKey cache key ++ [(key, v)]) ∧
    (containsKey cache key = false → cache.length = c.cache_size →
      1 ≤ c.cache_size → ∀ d, lookupFile fs key = some d →
      cache1 = cache.tail ++ [(key, d)]) := by
  by_cases hk : containsKey cache key = true
  · have hcb : cache_block c fs cache key = some (moveToEnd cache key) := by
      simp [cache_block, hk]
    rw [hcb] at hrun
    simp only [Option.some.injEq] at hrun
    subst hrun
    refine ⟨?_, ?_, ?_⟩
    · rw [length_moveToEnd hk]
      exact hb
    · intro v hv
      exact moveToEnd_eq hv
    · intro hfalse
      rw [hk] at hfalse
      exact absurd hfalse (by simp)
  · have hk' : containsKey cache key = false := by
      cases h : containsKey cache key
      · rfl
      · exact absurd h hk
    cases hf : lookupFile fs key with
    | none =>
      have : cache_block c fs cache key = none := by
        simp [cache_block, hk', hf]
      rw [this] at hrun
      exact Option.noConfusion hrun
    | some d =>
      have hnone : lookupEntry cache key = none :=
        lookupEntry_eq_none_of_not_containsKey hk'
      by_cases hev : (cache ++ [(key, d)]).length > c.cache_size
      · have hcb : cache_block c fs cache key =
            some ((cache ++ [(key, d)]).tail) := by
          simp only [cache_block, hk', Bool.false_eq_true, if_false, hf]
          rw [if_pos hev]
        rw [hcb] at hrun
        simp only [Option.some.injEq] at hrun
        subst hrun
        refine ⟨?_, ?_, ?_⟩
        · rw [List.length_tail, List.length_append]
          simp only [List.length_cons, List.length_nil]
          omega
        · intro v hv
          rw [hnone] at hv
          exact Option.noConfusion hv
        · intro _ hfull hcs1 d' hd'
          simp only [Option.some.injEq] at hd'
          subst hd'
          have hcn : cache ≠ [] := by
            intro hnil
            rw [hnil] at hfull
            simp at hfull
            omega
          exact List.tail_append_singleton_of_ne_nil hcn
      · have hcb : cache_block c fs cache key =
            some (cache ++ [(key, d)]) := by
          simp only [cache_block, hk', Bool.false_eq_true, if_false, hf]
          rw [if_neg hev]
        rw [hcb] at hrun
        simp only [Option.some.injEq] at hrun
        subst hrun
        refine ⟨?_, ?_, ?_⟩
        · simp only [List.length_append, List.length_cons, List.length_nil]
            at hev ⊢
          omega
        · intro v hv
          rw [hnone] at hv
          exact Option.noConfusion hv
        · intro _ hfull hcs1 d' hd'
          exfalso
          apply hev
          simp only [List.length_append, List.length_cons, List.length_nil,
            hfull]
          omega

/-- C8, witness: capacity 1, a full cache holding an entry for another
segment; accessing a new segment evicts the old entry and caches the new
one, staying within the bound. -/
theorem C8_lru_cache_invariant_witness :
    ([("block_1.bin", [2])] : Cache).length ≤ (plainConfig 100 1).cache_size ∧
    (∀ v, lookupEntry [("a", [1])] "block_1.bin" = some v →
      [("block_1.bin", [2])] =
        eraseKey [("a", [1])] "block_1.bin" ++ [("block_1.bin", v)]) ∧
    (containsKey [("a", [1])] "block_1.bin" = false →
      ([("a", [1])] : Cache).length = (plainConfig 100 1).cache_size →
      1 ≤ (plainConfig 100 1).cache_size →
      ∀ d, lookupFile [("block_1.bin", [2])] "block_1.bin" = some d →
      [("block_1.bin", [2])] =
        ([("a", [1])] : Cache).tail ++ [("block_1.bin", d)]) :=
  C8_lru_cache_invariant (plainConfig 100 1) [("block_1.bin", [2])]
    [("a", [1])] [("block_1.bin", [2])] "block_1.bin" (by decide) rfl

end FastBlocks
